import Mathlib

/-!
Shallow embedding of the `pull-sizer` webhook service (`main.go`).

The program authenticates an inbound GitHub webhook delivery with an
HMAC-SHA1 signature, filters the event (type `pull_request`, configured
repository, relevant action), aggregates the changed-line count of the
pull request over the paginated `ListFiles` upstream endpoint, selects a
size label from a fixed range table, and reconciles the pull request's
labels (remove every size label, add the selected one).

Go `int`/`int64` values are modelled as `Int` (the build targets 64-bit,
so `int64(changes)` is the identity); byte slices as `List Nat`; the
upstream GitHub client as explicit oracle functions / state machines;
Go's `(value, error)` multiple returns as pairs with an `Option` error
component; a nil-pointer dereference or out-of-range index as a
distinguished `panicked` outcome.
-/

namespace PullSizer

/-- Size contains the details on an individual size (struct `Size` in
`main.go`: `Min`, `Max` of type `int64`, modelled as `Int`). -/
structure Size where
  min : Int
  max : Int
deriving DecidableEq, Repr

/-- Go's `math.MaxInt64`. -/
def maxInt64 : Int := 9223372036854775807

/-- The default size table built in `init()` of `main.go`. The Go value is
a `map[string]Size`; it is modelled as an association list (Go map
iteration order is arbitrary; the theorems that depend on a unique match
hold in any order because the ranges are disjoint). -/
def defaultSizes : List (String × Size) :=
  [("size/XS", ⟨0, 9⟩),
   ("size/S", ⟨10, 29⟩),
   ("size/M", ⟨30, 99⟩),
   ("size/L", ⟨100, 499⟩),
   ("size/XL", ⟨500, 999⟩),
   ("size/XXL", ⟨1000, maxInt64⟩)]

/-- The inclusive range test used by the add loop of `updateLabel`:
`c64 >= v.Min && c64 <= v.Max`. -/
def sizeMatches (count : Int) (v : Size) : Prop :=
  v.min ≤ count ∧ count ≤ v.max

instance (count : Int) (v : Size) : Decidable (sizeMatches count v) := by
  unfold sizeMatches; infer_instance

/-- The label selection performed by the add loop of `updateLabel`: the
first entry of the table whose `[Min, Max]` range contains the count
(`none` when no range matches). -/
def classify (table : List (String × Size)) (count : Int) : Option String :=
  match table with
  | [] => none
  | (k, v) :: rest =>
      if sizeMatches count v then some k else classify rest count

/-- The label names of a table (keys of the `Sizes` map). -/
def sizeKeys (table : List (String × Size)) : List String :=
  table.map Prod.fst

/-- Go's `strings.Split(s, "/")`, worker on the character list: splits at
every `/`, never returns an empty list. -/
def splitSlashAux : List Char → List Char → List String
  | [], acc => [String.mk acc.reverse]
  | c :: cs, acc =>
      if c = '/' then String.mk acc.reverse :: splitSlashAux cs []
      else splitSlashAux cs (c :: acc)

/-- Go's `strings.Split(s, "/")` as used on `*payload.Repo.FullName` and
`repoOrOrgName` in `processHook`. -/
def splitSlash (s : String) : List String :=
  splitSlashAux s.data []

/-! ## SignatureValidator (`validateSig` in `main.go`)

The HMAC-SHA1 primitive comes from Go's standard library
(`crypto/hmac`, `crypto/sha1`), not from this repository; it is taken as
an abstract parameter `hmacSha1 : key → message → digest bytes`. The
repository's own logic — hex rendering with the `"sha1="` tag and the
constant-time comparison — is modelled in full. -/

/-- Lowercase hex digit as an ASCII byte (`fmt.Sprintf("%x", ·)`). -/
def hexDigit (n : Nat) : Nat :=
  if n < 10 then 48 + n else 87 + n

/-- Two lowercase hex ASCII bytes of one byte value. -/
def hexByte (b : Nat) : List Nat :=
  [hexDigit (b / 16), hexDigit (b % 16)]

/-- Lowercase hex rendering of a byte string, as ASCII bytes. -/
def hexBytes : List Nat → List Nat
  | [] => []
  | b :: rest => hexByte b ++ hexBytes rest

/-- The bytes of a string (Go's `[]byte(s)` conversion; code points stand
in for the UTF-8 encoding — injective, and the identity on the ASCII
strings the program compares). -/
def strBytes (s : String) : List Nat :=
  s.data.map Char.toNat

/-- The accumulation loop of Go's `crypto/subtle.ConstantTimeCompare`:
`v |= x[i] ^ y[i]` over all positions. -/
def ctFold : List (Nat × Nat) → Nat → Nat
  | [], v => v
  | (a, b) :: rest, v => ctFold rest (v ||| (a ^^^ b))

/-- Go's `subtle.ConstantTimeCompare`: `0` when the lengths differ,
otherwise `1` exactly when every byte pair is equal. -/
def constantTimeCompare (x y : List Nat) : Nat :=
  if x.length = y.length then
    (if ctFold (x.zip y) 0 = 0 then 1 else 0)
  else 0

/-- The checksum string `fmt.Sprintf("sha1=%x", sum)` computed by
`validateSig`, as bytes. -/
def checksumBytes (digest : List Nat) : List Nat :=
  strBytes "sha1=" ++ hexBytes digest

/-- The signing function of the spec: `sign(s, b)` is `"sha1="` followed
by the lowercase hex HMAC-SHA1 of `b` keyed by `s` (digest primitive
abstract). -/
def sign (hmacSha1 : List Nat → List Nat → List Nat)
    (sharedSecret body : List Nat) : List Nat :=
  checksumBytes (hmacSha1 sharedSecret body)

/-- `validateSig(sig, body)` from `main.go`: recompute the tagged hex
HMAC of the body under the shared secret and compare against the
provided signature with `subtle.ConstantTimeCompare`; `true` models the
nil-error (success) return. -/
def validateSig (hmacSha1 : List Nat → List Nat → List Nat)
    (sharedSecret : List Nat) (sig body : List Nat) : Bool :=
  constantTimeCompare (checksumBytes (hmacSha1 sharedSecret body)) sig = 1

end PullSizer
namespace PullSizer

lemma lor_eq_zero_iff (a b : Nat) : a ||| b = 0 ↔ a = 0 ∧ b = 0 := by
  constructor
  · intro h
    have ha : a = 0 := by
      apply Nat.eq_of_testBit_eq
      intro k
      have hk := congrArg (fun x => Nat.testBit x k) h
      simp [Nat.testBit_lor] at hk
      simp [hk.1]
    have hb : b = 0 := by
      apply Nat.eq_of_testBit_eq
      intro k
      have hk := congrArg (fun x => Nat.testBit x k) h
      simp [Nat.testBit_lor] at hk
      simp [hk.2]
    exact ⟨ha, hb⟩
  · rintro ⟨rfl, rfl⟩; rfl

lemma ctFold_eq_zero (l : List (Nat × Nat)) :
    ∀ v, ctFold l v = 0 ↔ v = 0 ∧ ∀ p ∈ l, p.1 = p.2 := by
  induction l with
  | nil => intro v; simp [ctFold]
  | cons hd tl ih =>
      intro v
      obtain ⟨a, b⟩ := hd
      rw [ctFold, ih]
      rw [lor_eq_zero_iff, Nat.xor_eq_zero]
      constructor
      · rintro ⟨⟨h0, hab⟩, hall⟩
        refine ⟨h0, ?_⟩
        intro p hp
        rcases List.mem_cons.mp hp with h | h
        · subst h; exact hab
        · exact hall p h
      · rintro ⟨h0, hall⟩
        refine ⟨⟨h0, hall (a, b) (List.mem_cons_self _ _)⟩, ?_⟩
        intro p hp
        exact hall p (List.mem_cons_of_mem _ hp)

lemma mem_zip_self (x : List Nat) : ∀ p ∈ x.zip x, p.1 = p.2 := by
  induction x with
  | nil => intro p hp; simp at hp
  | cons a t ih =>
      intro p hp
      rcases List.mem_cons.mp hp with h | h
      · subst h; rfl
      · exact ih p h

lemma zip_pointwise_eq : ∀ (x y : List Nat), x.length = y.length →
    (∀ p ∈ x.zip y, p.1 = p.2) → x = y := by
  intro x
  induction x with
  | nil =>
      intro y h _
      cases y with
      | nil => rfl
      | cons b u => simp at h
  | cons a t ih =>
      intro y h hall
      cases y with
      | nil => simp at h
      | cons b u =>
          simp only [List.zip_cons_cons] at hall
          have hab : a = b := hall (a, b) (List.mem_cons_self _ _)
          have ht : t = u := by
            refine ih u ?_ ?_
            · simpa using h
            · intro p hp; exact hall p (List.mem_cons_of_mem _ hp)
          rw [hab, ht]

lemma constantTimeCompare_eq_one_iff (x y : List Nat) :
    constantTimeCompare x y = 1 ↔ x = y := by
  unfold constantTimeCompare
  by_cases hlen : x.length = y.length
  · rw [if_pos hlen]
    by_cases hf : ctFold (x.zip y) 0 = 0
    · rw [if_pos hf]
      simp only [true_iff]
      exact zip_pointwise_eq x y hlen ((ctFold_eq_zero _ 0).mp hf).2
    · rw [if_neg hf]
      constructor
      · intro h; simp at h
      · intro h; subst h
        exact absurd ((ctFold_eq_zero _ 0).mpr ⟨rfl, mem_zip_self x⟩) hf
  · rw [if_neg hlen]
    constructor
    · intro h; simp at h
    · intro h; subst h; simp at hlen

/-- Claim C5: for every shared secret and body, a signature produced by
the signing scheme (the tagged lowercase-hex keyed digest) passes
`validateSig`, and every other signature byte string — in particular one
differing in at least one bit — fails it. The HMAC-SHA1 primitive is a
parameter (it lives in Go's standard library, outside this repository). -/
theorem validateSig_accepts_exactly_signature
    (hmacSha1 : List Nat → List Nat → List Nat) (s b : List Nat) :
    validateSig hmacSha1 s (sign hmacSha1 s b) b = true ∧
    ∀ sig : List Nat, sig ≠ sign hmacSha1 s b →
      validateSig hmacSha1 s sig b = false := by
  constructor
  · simp only [validateSig, sign, decide_eq_true_eq]
    exact (constantTimeCompare_eq_one_iff _ _).mpr rfl
  · intro sig hne
    simp only [validateSig, sign, decide_eq_false_iff_not]
    intro hone
    exact hne ((constantTimeCompare_eq_one_iff _ _).mp hone).symm

/-- Witness for C5 at a concrete digest function, secret, body and
corrupted signature. -/
theorem validateSig_accepts_exactly_signature_witness :
    validateSig (fun _ _ => [171]) [1] (sign (fun _ _ => [171]) [1] [2]) [2] = true ∧
    validateSig (fun _ _ => [171]) [1] [0] [2] = false :=
  ⟨(validateSig_accepts_exactly_signature (fun _ _ => [171]) [1] [2]).1,
   (validateSig_accepts_exactly_signature (fun _ _ => [171]) [1] [2]).2 [0] (by decide)⟩

end PullSizer
namespace PullSizer

/-- Any two entries of the default table matching the same count are the
same entry: the six ranges are pairwise disjoint. -/
lemma defaultSizes_disjoint (count : Int) :
    ∀ kv1 ∈ defaultSizes, ∀ kv2 ∈ defaultSizes,
      sizeMatches count kv1.2 → sizeMatches count kv2.2 → kv1 = kv2 := by
  intro kv1 h1 kv2 h2 hm1 hm2
  simp only [defaultSizes, maxInt64, List.mem_cons, List.not_mem_nil, or_false] at h1 h2
  rcases h1 with rfl | rfl | rfl | rfl | rfl | rfl <;>
    rcases h2 with rfl | rfl | rfl | rfl | rfl | rfl <;>
      simp_all [sizeMatches] <;> omega

/-- Claim C3: in the default size table every count in `[0, MaxInt64]`
(the whole range of the Go `int64` the count is compared as) is matched
by exactly one entry — a membership-based uniqueness, hence independent
of the map's iteration order — and the boundary and example counts 9, 10
and 47 classify to `size/XS`, `size/S` and `size/M`. -/
theorem defaultSizes_exactly_one_match :
    (∀ count : Int, 0 ≤ count → count ≤ maxInt64 →
      ∃! kv : String × Size, kv ∈ defaultSizes ∧ sizeMatches count kv.2) ∧
    classify defaultSizes 9 = some "size/XS" ∧
    classify defaultSizes 10 = some "size/S" ∧
    classify defaultSizes 47 = some "size/M" := by
  refine ⟨?_, by decide, by decide, by decide⟩
  intro count h0 h1
  have hex : ∃ kv : String × Size, kv ∈ defaultSizes ∧ sizeMatches count kv.2 := by
    by_cases c1 : count ≤ 9
    · exact ⟨("size/XS", ⟨0, 9⟩), by simp [defaultSizes], by simp [sizeMatches]; omega⟩
    by_cases c2 : count ≤ 29
    · exact ⟨("size/S", ⟨10, 29⟩), by simp [defaultSizes], by simp [sizeMatches]; omega⟩
    by_cases c3 : count ≤ 99
    · exact ⟨("size/M", ⟨30, 99⟩), by simp [defaultSizes], by simp [sizeMatches]; omega⟩
    by_cases c4 : count ≤ 499
    · exact ⟨("size/L", ⟨100, 499⟩), by simp [defaultSizes], by simp [sizeMatches]; omega⟩
    by_cases c5 : count ≤ 999
    · exact ⟨("size/XL", ⟨500, 999⟩), by simp [defaultSizes], by simp [sizeMatches]; omega⟩
    · refine ⟨("size/XXL", ⟨1000, maxInt64⟩), by simp [defaultSizes], ?_⟩
      simp [sizeMatches, maxInt64] at h1 ⊢
      omega
  obtain ⟨kv, hkv⟩ := hex
  exact ⟨kv, hkv, fun y hy => defaultSizes_disjoint count y hy.1 kv hkv.1 hy.2 hkv.2⟩

/-- Witness for C3 at the concrete count 5: exactly one default-table
entry matches it. -/
theorem defaultSizes_exactly_one_match_witness :
    ∃! kv : String × Size, kv ∈ defaultSizes ∧ sizeMatches 5 kv.2 :=
  defaultSizes_exactly_one_match.1 5 (by decide) (by decide)

end PullSizer
namespace PullSizer

/-! ## LabelReconciler (`updateLabel` in `main.go`)

The GitHub client is an oracle over an abstract upstream state `σ`:
`removeLabelForIssue` returns Go's `(res *github.Response, err error)`
pair as `(Option statusCode, Option errorMessage)` — a `none` response
models the nil pointer a pure transport failure produces — and
`addLabelsToIssue` returns its error as `Option String`. Every oracle
call also returns the next upstream state and is recorded in a call
trace. -/

/-- An upstream call made by `updateLabel`, in order. -/
inductive Call where
  | removeLabel (label : String)
  | addLabel (label : String)
deriving DecidableEq, Repr

/-- The outcome of `updateLabel`: the Go `(string, error)` return, or a
runtime panic (nil-pointer dereference). -/
inductive UpdateOut where
  | ret (label : String) (err : Option String)
  | panicked
deriving DecidableEq, Repr

/-- The GitHub issue-label API as seen by `updateLabel`. -/
structure GhApi (σ : Type) where
  removeLabelForIssue : String → σ → (Option Nat × Option String) × σ
  addLabelsToIssue : String → σ → Option String × σ

/-- The removal loop of `updateLabel` (`for k := range defaultSizes`):
inspects `res.StatusCode` first — panicking if the response is nil —
continues on 404, aborts returning the error when `err != nil`.
Result: `(early return if any, final upstream state, calls made)`. -/
def removePass (api : GhApi σ) : List (String × Size) → σ →
    Option UpdateOut × σ × List Call
  | [], s => (none, s, [])
  | (k, _) :: rest, s =>
      match api.removeLabelForIssue k s with
      | ((res, err), s1) =>
        match res with
        | none => (some .panicked, s1, [Call.removeLabel k])
        | some status =>
            if status = 404 then
              match removePass api rest s1 with
              | (o, s2, t) => (o, s2, Call.removeLabel k :: t)
            else
              match err with
              | some e => (some (.ret "" (some e)), s1, [Call.removeLabel k])
              | none =>
                  match removePass api rest s1 with
                  | (o, s2, t) => (o, s2, Call.removeLabel k :: t)

/-- The add loop of `updateLabel` (`for k, v := range defaultSizes`):
the first entry whose range contains the count is added; no match falls
through to `return "", nil`. -/
def addPhase (api : GhApi σ) (changes : Int) : List (String × Size) → σ →
    UpdateOut × σ × List Call
  | [], s => (.ret "" none, s, [])
  | (k, v) :: rest, s =>
      if sizeMatches changes v then
        match api.addLabelsToIssue k s with
        | (some e, s1) => (.ret k (some e), s1, [Call.addLabel k])
        | (none, s1) => (.ret k none, s1, [Call.addLabel k])
      else addPhase api changes rest s

/-- `updateLabel(owner, repo, number, changes)` from `main.go`: the full
removal pass over the size table, then the add loop (the `int64(changes)`
conversion is the identity on `Int`). -/
def updateLabel (api : GhApi σ) (changes : Int) (s : σ) :
    UpdateOut × σ × List Call :=
  match removePass api defaultSizes s with
  | (some out, s1, t) => (out, s1, t)
  | (none, s1, t) =>
      match addPhase api changes defaultSizes s1 with
      | (out, s2, t2) => (out, s2, t ++ t2)

/-- The happy-path GitHub upstream used by the idempotence and no-match
claims: the state is the pull request's label list; removing a present
label yields status 200 and removes it, removing an absent one yields
status 404 with a non-nil error and no change; adding a label inserts it
if absent. -/
def ghApi : GhApi (List String) :=
  { removeLabelForIssue := fun k s =>
      if k ∈ s then ((some 200, none), s.filter (fun x => x ≠ k))
      else ((some 404, some "404 Not Found"), s),
    addLabelsToIssue := fun k s =>
      (none, if k ∈ s then s else s ++ [k]) }

end PullSizer
namespace PullSizer

lemma removePass_no_add (api : GhApi σ) :
    ∀ (L : List (String × Size)) (s : σ) (l : String),
      Call.addLabel l ∉ (removePass api L s).2.2 := by
  intro L
  induction L with
  | nil => intro s l; simp [removePass]
  | cons hd tl ih =>
      intro s l
      obtain ⟨k, v⟩ := hd
      rcases hr : api.removeLabelForIssue k s with ⟨⟨res, err⟩, s1⟩
      rcases hrec : removePass api tl s1 with ⟨o, s2, t⟩
      have ihl := ih s1 l
      rw [hrec] at ihl
      rcases res with _ | status
      · simp [removePass, hr]
      · by_cases h404 : status = 404
        · subst h404
          simp only [removePass, hr, hrec]
          simp [ihl]
        · rcases err with _ | e
          · simp only [removePass, hr, hrec]
            simp [h404, ihl]
          · simp only [removePass, hr, hrec]
            simp [h404, ihl]

lemma removePass_complete_trace (api : GhApi σ) :
    ∀ (L : List (String × Size)) (s s2 : σ) (t : List Call),
      removePass api L s = (none, s2, t) →
      t = L.map (fun kv => Call.removeLabel kv.1) := by
  intro L
  induction L with
  | nil => intro s s2 t h; simp [removePass] at h; simp [h.2]
  | cons hd tl ih =>
      intro s s2 t h
      obtain ⟨k, v⟩ := hd
      rcases hr : api.removeLabelForIssue k s with ⟨⟨res, err⟩, s1⟩
      rcases hrec : removePass api tl s1 with ⟨o, s3, t3⟩
      rcases res with _ | status
      · simp [removePass, hr] at h
      · by_cases h404 : status = 404
        · subst h404
          simp only [removePass, hr, hrec] at h
          simp at h
          obtain ⟨ho, hs, ht⟩ := h
          subst ho
          rw [← ht, List.map_cons, ih s1 s3 t3 (by rw [hrec])]
        · rcases err with _ | e
          · simp only [removePass, hr, hrec] at h
            simp [h404] at h
            obtain ⟨ho, hs, ht⟩ := h
            subst ho
            rw [← ht, List.map_cons, ih s1 s3 t3 (by rw [hrec])]
          · simp only [removePass, hr, hrec] at h
            simp [h404] at h

end PullSizer
namespace PullSizer

lemma removePass_ghApi :
    ∀ (L : List (String × Size)) (s : List String),
      removePass ghApi L s =
        (none, s.filter (fun x => decide (x ∉ sizeKeys L)),
         L.map (fun kv => Call.removeLabel kv.1)) := by
  intro L
  induction L with
  | nil => intro s; simp [removePass, sizeKeys]
  | cons hd tl ih =>
      intro s
      obtain ⟨k, v⟩ := hd
      by_cases hk : k ∈ s
      · have hr : ghApi.removeLabelForIssue k s =
            ((some 200, none), s.filter (fun x => decide (x ≠ k))) := by
          simp [ghApi, hk]
        simp only [removePass, hr, ih]
        simp only [List.filter_filter, List.map_cons, Prod.mk.injEq, true_and, and_true]
        rw [if_neg (by decide : ¬ ((200 : Nat) = 404))]
        simp only [Prod.mk.injEq, true_and, and_true]
        apply List.filter_congr
        intro a _
        by_cases h1 : a = k <;> by_cases h2 : a ∈ sizeKeys tl <;>
          simp [sizeKeys, h1, h2]
      · have hr : ghApi.removeLabelForIssue k s = ((some 404, some "404 Not Found"), s) := by
          simp [ghApi, hk]
        simp only [removePass, hr, ih]
        simp only [List.map_cons, Prod.mk.injEq, true_and, and_true]
        rw [if_pos trivial]
        simp only [Prod.mk.injEq, true_and, and_true]
        apply List.filter_congr
        intro a ha
        have hak : a ≠ k := fun hak => hk (hak ▸ ha)
        simp [sizeKeys, hak]

lemma addPhase_classify (api : GhApi σ) (changes : Int) :
    ∀ (L : List (String × Size)) (s : σ),
      (classify L changes = none → addPhase api changes L s = (.ret "" none, s, [])) ∧
      (∀ k, classify L changes = some k →
        addPhase api changes L s =
          match api.addLabelsToIssue k s with
          | (some e, s1) => (.ret k (some e), s1, [Call.addLabel k])
          | (none, s1) => (.ret k none, s1, [Call.addLabel k])) := by
  intro L
  induction L with
  | nil => intro s; constructor
           · intro _; simp [addPhase]
           · intro k hk; simp [classify] at hk
  | cons hd tl ih =>
      intro s
      obtain ⟨k0, v0⟩ := hd
      by_cases hm : sizeMatches changes v0
      · constructor
        · intro hc
          exfalso
          simp [classify, hm] at hc
        · intro k hk
          simp only [classify, if_pos hm] at hk
          obtain rfl : k0 = k := by simpa using hk
          simp only [addPhase, if_pos hm]
      · constructor
        · intro hc
          simp only [classify, if_neg hm] at hc
          simp only [addPhase, if_neg hm]
          exact (ih s).1 hc
        · intro k hk
          simp only [classify, if_neg hm] at hk
          simp only [addPhase, if_neg hm]
          exact (ih s).2 k hk

lemma classify_defaultSizes_isSome (c : Int) (h0 : 0 ≤ c) (h1 : c ≤ maxInt64) :
    ∃ k, classify defaultSizes c = some k ∧ k ∈ sizeKeys defaultSizes := by
  by_cases c1 : sizeMatches c ⟨0, 9⟩
  · exact ⟨"size/XS", by simp [classify, defaultSizes, c1], by simp [sizeKeys, defaultSizes]⟩
  by_cases c2 : sizeMatches c ⟨10, 29⟩
  · exact ⟨"size/S", by simp [classify, defaultSizes, c1, c2], by simp [sizeKeys, defaultSizes]⟩
  by_cases c3 : sizeMatches c ⟨30, 99⟩
  · exact ⟨"size/M", by simp [classify, defaultSizes, c1, c2, c3], by simp [sizeKeys, defaultSizes]⟩
  by_cases c4 : sizeMatches c ⟨100, 499⟩
  · exact ⟨"size/L", by simp [classify, defaultSizes, c1, c2, c3, c4], by simp [sizeKeys, defaultSizes]⟩
  by_cases c5 : sizeMatches c ⟨500, 999⟩
  · exact ⟨"size/XL", by simp [classify, defaultSizes, c1, c2, c3, c4, c5],
      by simp [sizeKeys, defaultSizes]⟩
  · refine ⟨"size/XXL", ?_, by simp [sizeKeys, defaultSizes]⟩
    have c6 : sizeMatches c ⟨1000, maxInt64⟩ := by
      simp only [sizeMatches] at c1 c2 c3 c4 c5 ⊢
      simp only [maxInt64] at h1 ⊢
      omega
    simp [classify, defaultSizes, c1, c2, c3, c4, c5, c6]

end PullSizer
namespace PullSizer

lemma not_mem_filter_out_keys (k : String) (hk : k ∈ sizeKeys defaultSizes) (s : List String) :
    k ∉ s.filter (fun x => decide (x ∉ sizeKeys defaultSizes)) := by
  intro hmem
  have := (List.mem_filter.mp hmem).2
  simp at this
  exact this hk

lemma filter_out_keys_no_size (s : List String) :
    (s.filter (fun x => decide (x ∉ sizeKeys defaultSizes))).filter
      (fun x => decide (x ∈ sizeKeys defaultSizes)) = [] := by
  rw [List.filter_eq_nil_iff]
  intro a ha
  have := (List.mem_filter.mp ha).2
  simp at this ⊢
  exact this

lemma filter_out_keys_idem (s : List String) :
    (s.filter (fun x => decide (x ∉ sizeKeys defaultSizes))).filter
      (fun x => decide (x ∉ sizeKeys defaultSizes)) =
      s.filter (fun x => decide (x ∉ sizeKeys defaultSizes)) := by
  rw [List.filter_eq_self]
  intro a ha
  exact (List.mem_filter.mp ha).2

/-- One full happy-path run of `updateLabel` against the label-set
upstream, when the count classifies to `k`: all size labels are removed
(404s tolerated), `k` is appended, and the calls are the whole removal
pass followed by the one add. -/
lemma updateLabel_ghApi_run (changes : Int) (s : List String) (k : String)
    (hck : classify defaultSizes changes = some k) (hkmem : k ∈ sizeKeys defaultSizes) :
    updateLabel ghApi changes s =
      (.ret k none,
       s.filter (fun x => decide (x ∉ sizeKeys defaultSizes)) ++ [k],
       defaultSizes.map (fun kv => Call.removeLabel kv.1) ++ [Call.addLabel k]) := by
  have hghadd : ghApi.addLabelsToIssue k
      (s.filter (fun x => decide (x ∉ sizeKeys defaultSizes))) =
      (none, s.filter (fun x => decide (x ∉ sizeKeys defaultSizes)) ++ [k]) := by
    simp only [ghApi]
    rw [if_neg (not_mem_filter_out_keys k hkmem s)]
  have hap := (addPhase_classify ghApi changes defaultSizes
    (s.filter (fun x => decide (x ∉ sizeKeys defaultSizes)))).2 k hck
  rw [hghadd] at hap
  simp only [updateLabel, removePass_ghApi, hap]

end PullSizer
namespace PullSizer

/-- Claim C6: in every run of `updateLabel`, whenever a label is added
the call trace begins with the removal pass over every size label of the
table (so no add ever precedes the attempted full removal pass); and
against the label-set upstream, a count that no range matches yields the
success return `("", nil)` with no add call and with the existing size
labels still cleared from the pull request. -/
theorem updateLabel_removes_before_add :
    (∀ (σ : Type) (api : GhApi σ) (changes : Int) (s : σ) (l : String),
        Call.addLabel l ∈ (updateLabel api changes s).2.2 →
        ∃ t, (updateLabel api changes s).2.2 =
          defaultSizes.map (fun kv => Call.removeLabel kv.1) ++ t) ∧
    (∀ (changes : Int) (s : List String),
        classify defaultSizes changes = none →
        (updateLabel ghApi changes s).1 = .ret "" none ∧
        (∀ l, Call.addLabel l ∉ (updateLabel ghApi changes s).2.2) ∧
        (updateLabel ghApi changes s).2.1.filter
          (fun x => decide (x ∈ sizeKeys defaultSizes)) = []) := by
  constructor
  · intro σ api changes s l hmem
    rcases hrp : removePass api defaultSizes s with ⟨o, s1, t⟩
    rcases o with _ | out
    · rcases hap : addPhase api changes defaultSizes s1 with ⟨out2, s2, t2⟩
      refine ⟨t2, ?_⟩
      simp only [updateLabel, hrp, hap]
      rw [removePass_complete_trace api defaultSizes s s1 t hrp]
    · exfalso
      have hno := removePass_no_add api defaultSizes s l
      rw [hrp] at hno
      simp only [updateLabel, hrp] at hmem
      exact hno hmem
  · intro changes s hcnone
    have hap := (addPhase_classify ghApi changes defaultSizes
      (s.filter (fun x => decide (x ∉ sizeKeys defaultSizes)))).1 hcnone
    simp only [updateLabel, removePass_ghApi, hap]
    refine ⟨by trivial, ?_, filter_out_keys_no_size s⟩
    intro l
    simp

/-- Witness for C6: with the count −1 (no range matches) the run on a
pull request labelled `size/S` and `bug` returns success and leaves no
size label; with count 47 the add of `size/M` is preceded by the full
removal pass. -/
theorem updateLabel_removes_before_add_witness :
    ((updateLabel ghApi (-1) ["size/S", "bug"]).1 = .ret "" none ∧
     (updateLabel ghApi (-1) ["size/S", "bug"]).2.1.filter
       (fun x => decide (x ∈ sizeKeys defaultSizes)) = []) ∧
    ∃ t, (updateLabel ghApi 47 ["bug"]).2.2 =
      defaultSizes.map (fun kv => Call.removeLabel kv.1) ++ t :=
  ⟨⟨(updateLabel_removes_before_add.2 (-1) ["size/S", "bug"] (by decide)).1,
    (updateLabel_removes_before_add.2 (-1) ["size/S", "bug"] (by decide)).2.2⟩,
   updateLabel_removes_before_add.1 (List String) ghApi 47 ["bug"] "size/M" (by decide)⟩

/-- Claim C8: running `updateLabel` twice against the label-set upstream
with the same count is idempotent — the second run also returns success
(removals of the now-absent other size labels answer 404, which the loop
treats as success) and the final label set carries exactly one size
label, the classified one. -/
theorem updateLabel_idempotent (changes : Int) (s : List String)
    (h0 : 0 ≤ changes) (h1 : changes ≤ maxInt64) :
    ∃ l, (updateLabel ghApi changes s).1 = .ret l none ∧
      (updateLabel ghApi changes ((updateLabel ghApi changes s).2.1)).1 = .ret l none ∧
      (updateLabel ghApi changes ((updateLabel ghApi changes s).2.1)).2.1.filter
        (fun x => decide (x ∈ sizeKeys defaultSizes)) = [l] := by
  obtain ⟨k, hck, hkmem⟩ := classify_defaultSizes_isSome changes h0 h1
  have run1 := updateLabel_ghApi_run changes s k hck hkmem
  refine ⟨k, by rw [run1], ?_, ?_⟩
  · rw [run1]
    rw [updateLabel_ghApi_run changes _ k hck hkmem]
  · rw [run1]
    rw [updateLabel_ghApi_run changes _ k hck hkmem]
    simp only [List.filter_append, filter_out_keys_no_size]
    simp [hkmem]

end PullSizer
namespace PullSizer

/-- Witness for C8 at count 47 on a pull request carrying `size/XS` and
`bug`: both runs return `size/M` and exactly that size label remains. -/
theorem updateLabel_idempotent_witness :
    ∃ l, (updateLabel ghApi 47 ["size/XS", "bug"]).1 = .ret l none ∧
      (updateLabel ghApi 47 ((updateLabel ghApi 47 ["size/XS", "bug"]).2.1)).1 = .ret l none ∧
      (updateLabel ghApi 47 ((updateLabel ghApi 47 ["size/XS", "bug"]).2.1)).2.1.filter
        (fun x => decide (x ∈ sizeKeys defaultSizes)) = [l] :=
  updateLabel_idempotent 47 ["size/XS", "bug"] (by decide) (by decide)

/-- Claim C9: the removal loop of `updateLabel` inspects
`res.StatusCode` before checking the returned error, so a removal call
that produces an error with no response — a pure transport failure,
modelled as a `none` response — drives the run into the nil-pointer
dereference (`panicked`) instead of an error return. -/
theorem updateLabel_unguarded_status_dereference (σ : Type) (api : GhApi σ)
    (changes : Int) (s : σ)
    (h : (api.removeLabelForIssue "size/XS" s).1.1 = none) :
    (updateLabel api changes s).1 = .panicked := by
  rcases hr : api.removeLabelForIssue "size/XS" s with ⟨⟨res, err⟩, s1⟩
  rw [hr] at h
  simp only at h
  subst h
  simp [updateLabel, removePass, defaultSizes, hr]

/-- A GitHub client whose removal call fails in transport: Go's
`(nil, err)` return. -/
def nilRespApi : GhApi Unit :=
  { removeLabelForIssue := fun _ s => ((none, some "dial tcp: connection refused"), s),
    addLabelsToIssue := fun _ s => (none, s) }

/-- Witness for C9: against `nilRespApi` the run panics. -/
theorem updateLabel_unguarded_status_dereference_witness :
    (updateLabel nilRespApi 47 ()).1 = .panicked :=
  updateLabel_unguarded_status_dereference Unit nilRespApi 47 () rfl

end PullSizer
namespace PullSizer

/-! ## ChangeAggregator (`readPaginatedFileChanges` in `main.go`)

The upstream `ListFiles` endpoint is an oracle from the requested page
number (the `opts.Page` field; `0` on the first request, then the
response's `NextPage`) to a response: either a transport failure (Go's
non-nil `err`) or an HTTP response carrying a status, the per-file
`Changes` counts of that page, and the `NextPage` signal (`0` for none).
The requests always carry `PerPage: 100`, the upstream's maximum. The Go
`for {}` loop is given explicit fuel; `none` marks fuel exhaustion (a
non-terminating upstream), and `some (count, err?)` is Go's
`(int, error)` return — on every error path the count returned is `0`,
never a partial sum. -/

/-- One upstream answer to a `ListFiles` request. -/
inductive ListFilesResp where
  | failure (err : String)
  | page (status : Nat) (files : List Int) (nextPage : Nat)

/-- The `for {}` loop body of `readPaginatedFileChanges`: abort with
`(0, err)` on a transport error or a non-200 status, otherwise add the
page's `Changes` into the running total and continue while `NextPage`
is non-zero. -/
def readPagesLoop (fetch : Nat → ListFilesResp) : Nat → Nat → Int →
    Option (Int × Option String)
  | 0, _, _ => none
  | fuel + 1, pageNo, changes =>
      match fetch pageNo with
      | .failure e => some (0, some e)
      | .page status files next =>
          if status ≠ 200 then
            some (0, some "Unable to get changed files. Status code: non-200")
          else
            if next = 0 then some (changes + files.sum, none)
            else readPagesLoop fetch fuel next (changes + files.sum)

/-- `readPaginatedFileChanges(owner, repo, number)` from `main.go`:
start with `changes = 0` and the zero-valued `opts.Page`. -/
def readPaginatedFileChanges (fetch : Nat → ListFilesResp) (fuel : Nat) :
    Option (Int × Option String) :=
  readPagesLoop fetch fuel 0 0

/-- A well-behaved paginated upstream serving the page contents `pages`:
request `0` (first call) and request `i + 1` serve page index `i` with
status 200, signalling `NextPage = i + 2` while further pages exist. -/
def pagedFetch (pages : List (List Int)) (p : Nat) : ListFilesResp :=
  let i := if p = 0 then 0 else p - 1
  .page 200 (pages.getD i []) (if i + 1 < pages.length then i + 2 else 0)

/-- The same upstream, but failing in transport on page index `j`. -/
def pagedFetchFailAt (pages : List (List Int)) (j : Nat) (p : Nat) : ListFilesResp :=
  let i := if p = 0 then 0 else p - 1
  if i = j then .failure "simulated upstream failure" else pagedFetch pages p

/-- The same upstream, but answering page index `j` with the non-success
HTTP status `code` instead of 200. -/
def pagedFetchBadStatusAt (pages : List (List Int)) (j code : Nat) (p : Nat) : ListFilesResp :=
  let i := if p = 0 then 0 else p - 1
  if i = j then
    .page code (pages.getD i []) (if i + 1 < pages.length then i + 2 else 0)
  else pagedFetch pages p

lemma readPagesLoop_pagedFetch (pages : List (List Int)) :
    ∀ (fuel i : Nat) (acc : Int), i < pages.length → pages.length - i ≤ fuel →
      readPagesLoop (pagedFetch pages) fuel (i + 1) acc =
        some (acc + (((pages.drop i).map List.sum).sum), none) := by
  intro fuel
  induction fuel with
  | zero => intro i acc hi hf; omega
  | succ n ih =>
      intro i acc hi hf
      have hfetch : pagedFetch pages (i + 1) =
          .page 200 (pages.getD i []) (if i + 1 < pages.length then i + 2 else 0) := by
        simp [pagedFetch]
      rw [readPagesLoop, hfetch]
      have hget : pages.getD i [] = pages[i] := List.getD_eq_getElem pages [] hi
      have hdrop : pages.drop i = pages[i] :: pages.drop (i + 1) :=
        List.drop_eq_getElem_cons hi
      by_cases hlast : i + 1 < pages.length
      · rw [if_pos hlast]
        simp only [if_neg (by decide : ¬ ((200 : Nat) ≠ 200)), if_neg (by omega : ¬ (i + 2 = 0))]
        rw [ih (i + 1) (acc + (pages.getD i []).sum) hlast (by omega)]
        rw [hget, hdrop]
        simp only [List.map_cons, List.sum_cons]
        congr 2
        ring
      · rw [if_neg hlast]
        simp only [if_neg (by decide : ¬ ((200 : Nat) ≠ 200)), if_pos rfl]
        have hdrop1 : pages.drop (i + 1) = [] := List.drop_eq_nil_of_le (by omega)
        rw [hget, hdrop, hdrop1]
        simp

lemma readPagesLoop_pagedFetchFailAt (pages : List (List Int)) (j : Nat) :
    ∀ (fuel i : Nat) (acc : Int), i ≤ j → j < pages.length → pages.length - i ≤ fuel →
      readPagesLoop (pagedFetchFailAt pages j) fuel (i + 1) acc =
        some (0, some "simulated upstream failure") := by
  intro fuel
  induction fuel with
  | zero => intro i acc hij hj hf; omega
  | succ n ih =>
      intro i acc hij hj hf
      by_cases hfail : i = j
      · have hfetch : pagedFetchFailAt pages j (i + 1) = .failure "simulated upstream failure" := by
          simp [pagedFetchFailAt, hfail]
        rw [readPagesLoop, hfetch]
      · have hi : i < pages.length := by omega
        have hnext : i + 1 < pages.length := by omega
        have hfetch : pagedFetchFailAt pages j (i + 1) =
            .page 200 (pages.getD i []) (i + 2) := by
          simp [pagedFetchFailAt, pagedFetch, hfail, hnext]
        rw [readPagesLoop, hfetch]
        simp only [if_neg (by decide : ¬ ((200 : Nat) ≠ 200)), if_neg (by omega : ¬ (i + 2 = 0))]
        exact ih (i + 1) (acc + (pages.getD i []).sum) (by omega) hj (by omega)

lemma readPagesLoop_pagedFetchBadStatusAt (pages : List (List Int)) (j code : Nat)
    (hcode : code ≠ 200) :
    ∀ (fuel i : Nat) (acc : Int), i ≤ j → j < pages.length → pages.length - i ≤ fuel →
      readPagesLoop (pagedFetchBadStatusAt pages j code) fuel (i + 1) acc =
        some (0, some "Unable to get changed files. Status code: non-200") := by
  intro fuel
  induction fuel with
  | zero => intro i acc hij hj hf; omega
  | succ n ih =>
      intro i acc hij hj hf
      by_cases hbad : i = j
      · have hfetch : pagedFetchBadStatusAt pages j code (i + 1) =
            .page code (pages.getD i [])
              (if i + 1 < pages.length then i + 2 else 0) := by
          simp [pagedFetchBadStatusAt, hbad]
        rw [readPagesLoop, hfetch]
        simp only [if_pos hcode]
      · have hi : i < pages.length := by omega
        have hnext : i + 1 < pages.length := by omega
        have hfetch : pagedFetchBadStatusAt pages j code (i + 1) =
            .page 200 (pages.getD i []) (i + 2) := by
          simp [pagedFetchBadStatusAt, pagedFetch, hbad, hnext]
        rw [readPagesLoop, hfetch]
        simp only [if_neg (by decide : ¬ ((200 : Nat) ≠ 200)), if_neg (by omega : ¬ (i + 2 = 0))]
        exact ih (i + 1) (acc + (pages.getD i []).sum) (by omega) hj (by omega)

/-- Claim C4: against a well-behaved paginated upstream the aggregation
returns the exact sum of all per-file change counts over all pages, and
a transport failure or a non-200 response status on any page makes it
return the error with count `0` — never a partial sum. -/
theorem readPaginatedFileChanges_exact_or_error :
    (∀ (pages : List (List Int)) (fuel : Nat), pages.length < fuel →
      readPaginatedFileChanges (pagedFetch pages) fuel =
        some ((pages.map List.sum).sum, none)) ∧
    (∀ (pages : List (List Int)) (j fuel : Nat), j < pages.length →
      pages.length < fuel →
      readPaginatedFileChanges (pagedFetchFailAt pages j) fuel =
        some (0, some "simulated upstream failure")) ∧
    (∀ (pages : List (List Int)) (j code fuel : Nat), j < pages.length →
      code ≠ 200 → pages.length < fuel →
      readPaginatedFileChanges (pagedFetchBadStatusAt pages j code) fuel =
        some (0, some "Unable to get changed files. Status code: non-200")) := by
  refine ⟨?_, ?_, ?_⟩
  · intro pages fuel hfuel
    obtain ⟨n, rfl⟩ : ∃ n, fuel = n + 1 := ⟨fuel - 1, by omega⟩
    have hfetch : pagedFetch pages 0 =
        .page 200 (pages.getD 0 []) (if 0 + 1 < pages.length then 0 + 2 else 0) := by
      simp [pagedFetch]
    rw [readPaginatedFileChanges, readPagesLoop, hfetch]
    by_cases hone : 0 + 1 < pages.length
    · rw [if_pos hone]
      simp only [if_neg (by decide : ¬ ((200 : Nat) ≠ 200)), if_neg (by omega : ¬ (0 + 2 = 0))]
      rw [readPagesLoop_pagedFetch pages n 1 (0 + (pages.getD 0 []).sum) hone (by omega)]
      rcases pages with _ | ⟨p0, rest⟩
      · simp at hone
      · simp
    · rw [if_neg hone]
      simp only [if_neg (by decide : ¬ ((200 : Nat) ≠ 200)), if_pos rfl]
      rcases pages with _ | ⟨p0, rest⟩
      · simp
      · have hrest : rest = [] := by
          simp only [List.length_cons] at hone
          exact List.eq_nil_of_length_eq_zero (by omega)
        subst hrest
        simp
  · intro pages j fuel hj hfuel
    obtain ⟨n, rfl⟩ : ∃ n, fuel = n + 1 := ⟨fuel - 1, by omega⟩
    by_cases hj0 : j = 0
    · have hfetch : pagedFetchFailAt pages j 0 = .failure "simulated upstream failure" := by
        simp [pagedFetchFailAt, hj0]
      rw [readPaginatedFileChanges, readPagesLoop, hfetch]
    · have hone : 0 + 1 < pages.length := by omega
      have hfetch : pagedFetchFailAt pages j 0 = .page 200 (pages.getD 0 []) (0 + 2) := by
        simp [pagedFetchFailAt, pagedFetch, hj0, hone]
        omega
      rw [readPaginatedFileChanges, readPagesLoop, hfetch]
      simp only [if_neg (by decide : ¬ ((200 : Nat) ≠ 200)), if_neg (by omega : ¬ (0 + 2 = 0))]
      exact readPagesLoop_pagedFetchFailAt pages j n 1 (0 + (pages.getD 0 []).sum)
        (by omega) hj (by omega)
  · intro pages j code fuel hj hcode hfuel
    obtain ⟨n, rfl⟩ : ∃ n, fuel = n + 1 := ⟨fuel - 1, by omega⟩
    by_cases hj0 : j = 0
    · have hfetch : pagedFetchBadStatusAt pages j code 0 =
          .page code (pages.getD 0 [])
            (if 0 + 1 < pages.length then 0 + 2 else 0) := by
        simp [pagedFetchBadStatusAt, hj0]
      rw [readPaginatedFileChanges, readPagesLoop, hfetch]
      simp only [if_pos hcode]
    · have hone : 0 + 1 < pages.length := by omega
      have hfetch : pagedFetchBadStatusAt pages j code 0 =
          .page 200 (pages.getD 0 []) (0 + 2) := by
        simp [pagedFetchBadStatusAt, pagedFetch, hj0, hone]
        omega
      rw [readPaginatedFileChanges, readPagesLoop, hfetch]
      simp only [if_neg (by decide : ¬ ((200 : Nat) ≠ 200)), if_neg (by omega : ¬ (0 + 2 = 0))]
      exact readPagesLoop_pagedFetchBadStatusAt pages j code hcode n 1
        (0 + (pages.getD 0 []).sum) (by omega) hj (by omega)

/-- Witness for C4: three pages summing to 6 aggregate exactly; a
transport failure on page 2 of 3 yields the error with count 0; and a
502 status on page 2 of 3 likewise yields the error with count 0. -/
theorem readPaginatedFileChanges_exact_or_error_witness :
    readPaginatedFileChanges (pagedFetch [[1, 2], [3], []]) 4 = some (6, none) ∧
    readPaginatedFileChanges (pagedFetchFailAt [[1, 2], [3], []] 1) 4 =
      some (0, some "simulated upstream failure") ∧
    readPaginatedFileChanges (pagedFetchBadStatusAt [[1, 2], [3], []] 1 502) 4 =
      some (0, some "Unable to get changed files. Status code: non-200") :=
  ⟨readPaginatedFileChanges_exact_or_error.1 [[1, 2], [3], []] 4 (by decide),
   readPaginatedFileChanges_exact_or_error.2.1 [[1, 2], [3], []] 1 4 (by decide) (by decide),
   readPaginatedFileChanges_exact_or_error.2.2 [[1, 2], [3], []] 1 502 4
     (by decide) (by decide) (by decide)⟩

end PullSizer
namespace PullSizer

/-! ## The webhook handler (`processHook` in `main.go`)

The gin request is flattened into its observable parts: the
`X-Hub-Signature` header (Go's `GetHeader` returns `""` when absent), the
body-read result, the `X-GitHub-Event` header, and the outcome of
`github.ParseWebHook` on the body. The two core collaborators invoked
after filtering — `readPaginatedFileChanges` and `updateLabel` — appear
as oracles returning their Go `(value, error)` pairs for the owner, repo
and PR number they are called with. The result records the HTTP status,
the response message and the ordered pipeline steps performed;
`panicked` models a Go runtime panic (here: an out-of-range slice
index), which `gin.Recovery()` would surface as a 500 outside the
handler's own code. -/

/-- The fields of `github.PullRequestEvent` that `processHook` reads. -/
structure PullRequestEvent where
  repoFullName : String
  action : String
  number : Int
deriving DecidableEq, Repr

/-- A pipeline step performed by `processHook` after signature
validation. -/
inductive HookStep where
  | parseWebHook
  | readFiles
  | updateLabelCall
deriving DecidableEq, Repr

/-- The observable outcome of one delivery. -/
inductive HookResult where
  | resp (status : Nat) (message : String) (steps : List HookStep)
  | panicked (steps : List HookStep)
deriving DecidableEq, Repr

/-- The steps a `HookResult` performed. -/
def HookResult.steps : HookResult → List HookStep
  | .resp _ _ t => t
  | .panicked t => t

/-- The code of `processHook` after the repository check: the action
filter, the aggregation call and the label reconciliation (the
`repoSplit[1]` argument of the aggregation call is an out-of-range index
when the full name held no `/`). -/
def afterRepoCheck (readFiles : String → String → Int → Int × Option String)
    (updLabel : String → String → Int → Int → String × Option String)
    (payload : PullRequestEvent) (repoSplit : List String) : HookResult :=
  if payload.action ≠ "opened" ∧ payload.action ≠ "synchronize" ∧
      payload.action ≠ "reopened" then
    .resp 200 "Skipping action" [.parseWebHook]
  else
    match repoSplit.get? 1 with
    | none => .panicked [.parseWebHook]
    | some repoName =>
        match readFiles (repoSplit.headD "") repoName payload.number with
        | (_, some _) => .resp 400 "Error reading PR changes" [.parseWebHook, .readFiles]
        | (changes, none) =>
            match updLabel (repoSplit.headD "") repoName payload.number changes with
            | (_, some _) =>
                .resp 500 "Error processing request (1)"
                  [.parseWebHook, .readFiles, .updateLabelCall]
            | (_, none) =>
                .resp 200 "Success" [.parseWebHook, .readFiles, .updateLabelCall]

/-- `processHook` from `main.go`: signature presence check, body read,
signature validation, event-type filter, payload parse, repository
check (`strings.Split` on `/`; `repoSplit[0]` always exists because
`strings.Split` never returns an empty slice, while `repoSplit[1]` is an
unguarded index), then `afterRepoCheck`. -/
def processHook (hmacSha1 : List Nat → List Nat → List Nat)
    (sharedSecret : List Nat) (repoOrOrgName : String)
    (sig : String) (body : Except String (List Nat)) (eventHeader : String)
    (parse : List Nat → Except String PullRequestEvent)
    (readFiles : String → String → Int → Int × Option String)
    (updLabel : String → String → Int → Int → String × Option String) : HookResult :=
  if sig = "" then .resp 400 "Missing X-Hub-Signature" []
  else
    match body with
    | .error _ => .resp 400 "Malformed body" []
    | .ok bodyBytes =>
        if validateSig hmacSha1 sharedSecret (strBytes sig) bodyBytes = false then
          .resp 403 "Validating payload against signature failed" []
        else if eventHeader ≠ "pull_request" then
          .resp 200 "Skipping event type" []
        else
          match parse bodyBytes with
          | .error _ => .resp 400 "Malformed body" [.parseWebHook]
          | .ok payload =>
              let repoSplit := splitSlash payload.repoFullName
              let checkSplit := splitSlash repoOrOrgName
              if repoSplit.headD "" ≠ checkSplit.headD "" then
                .resp 403 "Not configured for this repository" [.parseWebHook]
              else if 1 < checkSplit.length then
                match repoSplit.get? 1 with
                | none => .panicked [.parseWebHook]
                | some name1 =>
                    if name1 ≠ checkSplit.getD 1 "" then
                      .resp 403 "Not configured for this repository" [.parseWebHook]
                    else afterRepoCheck readFiles updLabel payload repoSplit
              else afterRepoCheck readFiles updLabel payload repoSplit

end PullSizer
namespace PullSizer

lemma processHook_config_match (hmacSha1 : List Nat → List Nat → List Nat)
    (secret : List Nat) (cfg : String) (o n : String) (sig : String) (b : List Nat)
    (parse : List Nat → Except String PullRequestEvent)
    (rf : String → String → Int → Int × Option String)
    (ul : String → String → Int → Int → String × Option String)
    (payload : PullRequestEvent)
    (hsig : sig ≠ "")
    (hval : validateSig hmacSha1 secret (strBytes sig) b = true)
    (hparse : parse b = .ok payload)
    (hsplit : splitSlash payload.repoFullName = [o, n])
    (hcfg : splitSlash cfg = [o, n]) :
    processHook hmacSha1 secret cfg sig (.ok b) "pull_request" parse rf ul =
      afterRepoCheck rf ul payload [o, n] := by
  simp only [processHook, hval, hparse, hsplit, hcfg]
  simp [hsig]

lemma afterRepoCheck_action
    (rf : String → String → Int → Int × Option String)
    (ul : String → String → Int → Int → String × Option String)
    (payload : PullRequestEvent) (o n : String) :
    ((payload.action = "opened" ∨ payload.action = "synchronize" ∨
        payload.action = "reopened") →
      HookStep.readFiles ∈ (afterRepoCheck rf ul payload [o, n]).steps) ∧
    ((payload.action ≠ "opened" ∧ payload.action ≠ "synchronize" ∧
        payload.action ≠ "reopened") →
      afterRepoCheck rf ul payload [o, n] = .resp 200 "Skipping action" [.parseWebHook]) := by
  constructor
  · intro hin
    have hcond : ¬ (payload.action ≠ "opened" ∧ payload.action ≠ "synchronize" ∧
        payload.action ≠ "reopened") := by tauto
    simp only [afterRepoCheck, if_neg hcond]
    rcases hrf : rf o n payload.number with ⟨c, err⟩
    rcases err with _ | e
    · rcases hul : ul o n payload.number c with ⟨l, err2⟩
      rcases err2 with _ | e2 <;> simp [hrf, hul, HookResult.steps]
    · simp [hrf, HookResult.steps]
  · intro hcond
    simp only [afterRepoCheck, if_pos hcond]

end PullSizer
namespace PullSizer

/-- Claim C1 as stated is false at a concrete delivery: an aggregation
failure (`readPaginatedFileChanges` returning an error) is answered with
HTTP 400, not 500. -/
theorem processHook_aggregation_error_counterexample :
    processHook (fun _ _ => []) [] "acme/widget" "sha1=" (.ok []) "pull_request"
      (fun _ => .ok ⟨"acme/widget", "opened", 1⟩)
      (fun _ _ _ => (0, some "upstream failure"))
      (fun _ _ _ _ => ("", none)) =
      .resp 400 "Error reading PR changes" [.parseWebHook, .readFiles] ∧
    (400 : Nat) ≠ 500 := ⟨by decide, by decide⟩

/-- Claim C1 (amended): for an authenticated, matching delivery, an
`UpstreamError` during label mutation (`updateLabel`) is answered with
HTTP 500, but an `UpstreamError` during change aggregation
(`readPaginatedFileChanges`) is answered with HTTP 400 ("Error reading
PR changes"). -/
theorem processHook_upstream_error_statuses
    (hmacSha1 : List Nat → List Nat → List Nat)
    (secret : List Nat) (cfg : String) (o n : String) (sig : String) (b : List Nat)
    (parse : List Nat → Except String PullRequestEvent)
    (rf : String → String → Int → Int × Option String)
    (ul : String → String → Int → Int → String × Option String)
    (payload : PullRequestEvent)
    (hsig : sig ≠ "")
    (hval : validateSig hmacSha1 secret (strBytes sig) b = true)
    (hparse : parse b = .ok payload)
    (hsplit : splitSlash payload.repoFullName = [o, n])
    (hcfg : splitSlash cfg = [o, n])
    (haction : payload.action = "opened") :
    (∀ c e, rf o n payload.number = (c, some e) →
      processHook hmacSha1 secret cfg sig (.ok b) "pull_request" parse rf ul =
        .resp 400 "Error reading PR changes" [.parseWebHook, .readFiles]) ∧
    (∀ c l e, rf o n payload.number = (c, none) → ul o n payload.number c = (l, some e) →
      processHook hmacSha1 secret cfg sig (.ok b) "pull_request" parse rf ul =
        .resp 500 "Error processing request (1)"
          [.parseWebHook, .readFiles, .updateLabelCall]) := by
  rw [processHook_config_match hmacSha1 secret cfg o n sig b parse rf ul payload
    hsig hval hparse hsplit hcfg]
  have hcond : ¬ (payload.action ≠ "opened" ∧ payload.action ≠ "synchronize" ∧
      payload.action ≠ "reopened") := by simp [haction]
  constructor
  · intro c e hrf
    simp only [afterRepoCheck, if_neg hcond]
    simp [hrf]
  · intro c l e hrf hul
    simp only [afterRepoCheck, if_neg hcond]
    simp [hrf, hul]

/-- Witness for the amended C1 at a concrete delivery whose label
mutation fails: the response is HTTP 500. -/
theorem processHook_upstream_error_statuses_witness :
    processHook (fun _ _ => []) [] "acme/widget" "sha1=" (.ok []) "pull_request"
      (fun _ => .ok ⟨"acme/widget", "opened", 1⟩)
      (fun _ _ _ => (47, none))
      (fun _ _ _ _ => ("", some "boom")) =
      .resp 500 "Error processing request (1)"
        [.parseWebHook, .readFiles, .updateLabelCall] :=
  (processHook_upstream_error_statuses (fun _ _ => []) [] "acme/widget" "acme" "widget"
    "sha1=" [] (fun _ => .ok ⟨"acme/widget", "opened", 1⟩)
    (fun _ _ _ => (47, none)) (fun _ _ _ _ => ("", some "boom"))
    ⟨"acme/widget", "opened", 1⟩
    (by decide) (by decide) rfl (by decide) (by decide) rfl).2 47 "" "boom" rfl rfl

/-- Claim C2 as stated is false at a concrete delivery: the action
`"synchronized"` belongs to the claimed action set, yet the code (which
tests for `"synchronize"`) answers it with the skip response and no
aggregation step. -/
theorem processHook_synchronized_counterexample :
    "synchronized" ∈ ["opened", "synchronized", "reopened"] ∧
    processHook (fun _ _ => []) [] "acme/widget" "sha1=" (.ok []) "pull_request"
      (fun _ => .ok ⟨"acme/widget", "synchronized", 1⟩)
      (fun _ _ _ => (47, none))
      (fun _ _ _ _ => ("size/M", none)) =
      .resp 200 "Skipping action" [.parseWebHook] := ⟨by decide, by decide⟩

/-- Claim C2 (amended): for an authenticated `pull_request` delivery for
the configured repository, the pipeline reaches change aggregation
exactly when the action is one of `opened`, `synchronize` (not
`synchronized`), `reopened`; every other action gets the 200 skip
response with no further step. -/
theorem processHook_action_filter
    (hmacSha1 : List Nat → List Nat → List Nat)
    (secret : List Nat) (cfg : String) (o n : String) (sig : String) (b : List Nat)
    (parse : List Nat → Except String PullRequestEvent)
    (rf : String → String → Int → Int × Option String)
    (ul : String → String → Int → Int → String × Option String)
    (payload : PullRequestEvent)
    (hsig : sig ≠ "")
    (hval : validateSig hmacSha1 secret (strBytes sig) b = true)
    (hparse : parse b = .ok payload)
    (hsplit : splitSlash payload.repoFullName = [o, n])
    (hcfg : splitSlash cfg = [o, n]) :
    (payload.action ∈ ["opened", "synchronize", "reopened"] →
      HookStep.readFiles ∈
        (processHook hmacSha1 secret cfg sig (.ok b) "pull_request" parse rf ul).steps) ∧
    (payload.action ∉ ["opened", "synchronize", "reopened"] →
      processHook hmacSha1 secret cfg sig (.ok b) "pull_request" parse rf ul =
        .resp 200 "Skipping action" [.parseWebHook]) := by
  rw [processHook_config_match hmacSha1 secret cfg o n sig b parse rf ul payload
    hsig hval hparse hsplit hcfg]
  constructor
  · intro hin
    exact (afterRepoCheck_action rf ul payload o n).1 (by simpa using hin)
  · intro hout
    refine (afterRepoCheck_action rf ul payload o n).2 ?_
    simp only [List.mem_cons, List.not_mem_nil, or_false, not_or] at hout
    exact ⟨hout.1, hout.2.1, hout.2.2⟩

/-- Witness for the amended C2: an `opened` delivery reaches the
aggregation step; a `labeled` delivery is answered with the skip
response. -/
theorem processHook_action_filter_witness :
    HookStep.readFiles ∈
      (processHook (fun _ _ => []) [] "acme/widget" "sha1=" (.ok []) "pull_request"
        (fun _ => .ok ⟨"acme/widget", "opened", 1⟩)
        (fun _ _ _ => (47, none)) (fun _ _ _ _ => ("size/M", none))).steps ∧
    processHook (fun _ _ => []) [] "acme/widget" "sha1=" (.ok []) "pull_request"
      (fun _ => .ok ⟨"acme/widget", "labeled", 1⟩)
      (fun _ _ _ => (47, none)) (fun _ _ _ _ => ("size/M", none)) =
      .resp 200 "Skipping action" [.parseWebHook] :=
  ⟨(processHook_action_filter (fun _ _ => []) [] "acme/widget" "acme" "widget"
      "sha1=" [] (fun _ => .ok ⟨"acme/widget", "opened", 1⟩)
      (fun _ _ _ => (47, none)) (fun _ _ _ _ => ("size/M", none))
      ⟨"acme/widget", "opened", 1⟩
      (by decide) (by decide) rfl (by decide) (by decide)).1 (by decide),
   (processHook_action_filter (fun _ _ => []) [] "acme/widget" "acme" "widget"
      "sha1=" [] (fun _ => .ok ⟨"acme/widget", "labeled", 1⟩)
      (fun _ _ _ => (47, none)) (fun _ _ _ _ => ("size/M", none))
      ⟨"acme/widget", "labeled", 1⟩
      (by decide) (by decide) rfl (by decide) (by decide)).2 (by decide)⟩

/-- Claim C7: a delivery without the `X-Hub-Signature` header is
answered with HTTP 400, and one whose signature differs from the keyed
digest of the body is answered with HTTP 403 with an empty step list —
the payload is never parsed and no upstream call is made. -/
theorem processHook_auth_failures
    (hmacSha1 : List Nat → List Nat → List Nat)
    (secret : List Nat) (cfg : String) (sig : String)
    (body : Except String (List Nat)) (eventHeader : String)
    (parse : List Nat → Except String PullRequestEvent)
    (rf : String → String → Int → Int × Option String)
    (ul : String → String → Int → Int → String × Option String) :
    (sig = "" →
      processHook hmacSha1 secret cfg sig body eventHeader parse rf ul =
        .resp 400 "Missing X-Hub-Signature" []) ∧
    (∀ b, sig ≠ "" → body = .ok b → strBytes sig ≠ sign hmacSha1 secret b →
      processHook hmacSha1 secret cfg sig body eventHeader parse rf ul =
        .resp 403 "Validating payload against signature failed" []) := by
  constructor
  · intro h
    simp [processHook, h]
  · intro b hs hb hne
    subst hb
    have hv : validateSig hmacSha1 secret (strBytes sig) b = false := by
      simp only [validateSig, decide_eq_false_iff_not]
      intro h1
      exact hne ((constantTimeCompare_eq_one_iff _ _).mp h1).symm
    simp [processHook, hs, hv]

/-- Witness for C7: the missing-header case answers 400 and a corrupted
signature answers 403 with no step performed. -/
theorem processHook_auth_failures_witness :
    processHook (fun _ _ => []) [] "acme/widget" "" (.ok []) "pull_request"
      (fun _ => .ok ⟨"acme/widget", "opened", 1⟩)
      (fun _ _ _ => (47, none)) (fun _ _ _ _ => ("size/M", none)) =
      .resp 400 "Missing X-Hub-Signature" [] ∧
    processHook (fun _ _ => []) [] "acme/widget" "sha1=ff" (.ok []) "pull_request"
      (fun _ => .ok ⟨"acme/widget", "opened", 1⟩)
      (fun _ _ _ => (47, none)) (fun _ _ _ _ => ("size/M", none)) =
      .resp 403 "Validating payload against signature failed" [] :=
  ⟨(processHook_auth_failures (fun _ _ => []) [] "acme/widget" "" (.ok []) "pull_request"
      (fun _ => .ok ⟨"acme/widget", "opened", 1⟩)
      (fun _ _ _ => (47, none)) (fun _ _ _ _ => ("size/M", none))).1 rfl,
   (processHook_auth_failures (fun _ _ => []) [] "acme/widget" "sha1=ff" (.ok []) "pull_request"
      (fun _ => .ok ⟨"acme/widget", "opened", 1⟩)
      (fun _ _ _ => (47, none)) (fun _ _ _ _ => ("size/M", none))).2 []
      (by decide) rfl (by decide)⟩

/-- Claim C10: with an `owner/name` configured repository spec, an
authenticated `pull_request` event whose repository full name holds no
`/` but whose sole component equals the configured owner drives the
repository check into the out-of-range index `repoSplit[1]` — a runtime
panic. -/
theorem processHook_short_full_name_panics
    (hmacSha1 : List Nat → List Nat → List Nat)
    (secret : List Nat) (cfg : String) (o n : String) (sig : String) (b : List Nat)
    (parse : List Nat → Except String PullRequestEvent)
    (rf : String → String → Int → Int × Option String)
    (ul : String → String → Int → Int → String × Option String)
    (payload : PullRequestEvent)
    (hsig : sig ≠ "")
    (hval : validateSig hmacSha1 secret (strBytes sig) b = true)
    (hparse : parse b = .ok payload)
    (hsplit : splitSlash payload.repoFullName = [o])
    (hcfg : splitSlash cfg = [o, n]) :
    processHook hmacSha1 secret cfg sig (.ok b) "pull_request" parse rf ul =
      .panicked [.parseWebHook] := by
  simp only [processHook, hval, hparse, hsplit, hcfg]
  simp [hsig]

/-- Witness for C10: configured for `acme/widget`, an event whose
repository full name is just `acme` panics in the repository check. -/
theorem processHook_short_full_name_panics_witness :
    processHook (fun _ _ => []) [] "acme/widget" "sha1=" (.ok []) "pull_request"
      (fun _ => .ok ⟨"acme", "opened", 1⟩)
      (fun _ _ _ => (47, none)) (fun _ _ _ _ => ("size/M", none)) =
      .panicked [.parseWebHook] :=
  processHook_short_full_name_panics (fun _ _ => []) [] "acme/widget" "acme" "widget"
    "sha1=" [] (fun _ => .ok ⟨"acme", "opened", 1⟩)
    (fun _ _ _ => (47, none)) (fun _ _ _ _ => ("size/M", none))
    ⟨"acme", "opened", 1⟩ (by decide) (by decide) rfl (by decide) (by decide)

end PullSizer
